import Mathlib

/-!
Verification of the trial-engine logic of the reaction-time mini-games.

Each definition below is a shallow embedding of a function from the
repository's source, with the source file and line range noted in its
doc comment.  Machine numbers are modelled as `Nat`/`Int`, JS division
as `ℚ` division, and `Math.round` as Mathlib's `round` (both are
floor (x + 1/2)).  Randomness is modelled by an explicit stream of
draws, and timers by explicit schedules or event parameters.
-/

/-! ## Span difficulty controller
(Central–PeripheralSpanTask.jsx `finishTrial`, line 72;
SpamperceptionBlocks.jsx `finishTrial`, line 149) -/

/-- Embedding of `Math.max(MIN_LEN, Math.min(MAX_LEN, seqLen + (ok ? 1 : -1)))`
with MIN_LEN = 2, MAX_LEN = 7. -/
def nextLen (len : Int) (ok : Bool) : Int :=
  max 2 (min 7 (len + if ok then 1 else -1))

/-- The sequence of length values visited when starting from `len` and
feeding each trial outcome of `outcomes` to `nextLen` in order. -/
def lenTrace (len : Int) : List Bool → List Int
  | [] => [len]
  | b :: bs => len :: lenTrace (nextLen len b) bs

/-! ## Ordered-sequence response matching
(Central–PeripheralSpanTask.jsx `onCellClick`, lines 103–111;
SpamperceptionBlocks.jsx `onCellClick`, lines 183–237) -/

/-- Outcome of one span trial's respond phase. -/
inductive TrialOutcome where
  | correct : TrialOutcome
  | incorrectAt (pos : Nat) : TrialOutcome
  | pending (pos : Nat) : TrialOutcome
deriving DecidableEq, Repr

/-- Embedding of the respond-phase click loop: starting at position `pos`
with expected sequence `s`, consume responses one by one.  A response `r`
is correct iff `r` equals `s[pos]` (`i === seq[replayPos]`); a correct
response at the last position ends the trial as `correct`, any incorrect
response ends it immediately as `incorrectAt pos`.  The second component
is the list of responses left unconsumed when the trial concluded. -/
def runTrial (s : List Nat) : Nat → List Nat → TrialOutcome × List Nat
  | pos, [] => (.pending pos, [])
  | pos, r :: rs =>
    if s.get? pos = some r then
      if s.length ≤ pos + 1 then (.correct, rs)
      else runTrial s (pos + 1) rs
    else (.incorrectAt pos, rs)

/-! ## Sequence presentation schedule
(Central–PeripheralSpanTask.jsx `presentSeq`, lines 50–60;
SpamperceptionBlocks.jsx `presentSequence`, lines 114–134) -/

/-- A callback scheduled during the presentation of one span sequence. -/
inductive PEvent where
  | onset (cell : Nat) : PEvent
  | stimOff : PEvent
  | phaseRespond : PEvent
deriving DecidableEq, Repr

/-- ON_MS in both span games. -/
def ON_MS : Nat := 600

/-- GAP_MS in both span games. -/
def GAP_MS : Nat := 400

/-- The loop body of `presentSeq`: starting from cumulative delay `t`,
for each cell schedule its onset at `t` and its offset at `t + ON_MS`,
advancing `t` by `ON_MS + GAP_MS`; after the loop, schedule the phase
change to `respond` at the final `t`. -/
def presentAux (t : Nat) : List Nat → List (Nat × PEvent)
  | [] => [(t, .phaseRespond)]
  | c :: cs => (t, .onset c) :: (t + ON_MS, .stimOff) :: presentAux (t + ON_MS + GAP_MS) cs

/-- Embedding of `presentSeq`: the full schedule of (delay, callback)
pairs produced for the sequence `arr`, in scheduling order. -/
def presentSchedule (arr : List Nat) : List (Nat × PEvent) :=
  presentAux 0 arr

/-! ## Report accuracy formulas
(unnamed/part_001 ColorReactionGame `stop`, lines 83–87;
SaccadicGame.jsx ColorReactionGameEdges `stop`, lines 67–71;
SpamperceptionBlocks.jsx `buildReport`, line 245;
FiveTargetReactionGame.jsx `stop`, line 89) -/

/-- Embedding of the go/no-go games' accuracy:
`attempts ? Math.round((hits / attempts) * 100) : 100` with
`attempts = hits + errors + misses`. -/
def colorAccuracyPct (hits errors misses : Nat) : Int :=
  let attempts := hits + errors + misses
  if attempts = 0 then 100
  else round (((hits : ℚ) / (attempts : ℚ)) * 100)

/-- Embedding of SpamperceptionBlocks' per-modality accuracy:
`st.total > 0 ? Math.round((st.hits / st.total) * 100) : 0`. -/
def spamAccuracyPct (hits total : Nat) : Int :=
  if 0 < total then round (((hits : ℚ) / (total : ℚ)) * 100)
  else 0

/-- Embedding of FiveTargetReactionGame's accuracy:
`Math.round((hits / (hits + errors)) * 100) || 100`.  In JS the `|| 100`
replaces every falsy rounded value by 100: both `NaN` (the 0/0 case) and
a genuine rounded 0.  Over ℚ the 0/0 case gives round 0, so both JS
cases land in the `r = 0` branch, reproducing the JS result at every
input. -/
def fiveAccuracyPct (hits errors : Nat) : Int :=
  let r := round (((hits : ℚ) / ((hits : ℚ) + (errors : ℚ))) * 100)
  if r = 0 then 100 else r

/-! ## Stimulus-sequence generator
(Central–PeripheralSpanTask.jsx `randSeq`, lines 39–48;
SpamperceptionBlocks.jsx `randUniqueSeq`, lines 101–109) -/

/-- Embedding of `regionFilter` (Central–PeripheralSpanTask.jsx lines
28–37): the cell indices of the 10×10 grid whose row and column both lie
in 3..6 (`central = true`) or its complement (`central = false`). -/
def regionFilter (central : Bool) : List Nat :=
  (List.range 100).filter fun idx =>
    let r := idx / 10
    let c := idx % 10
    let inCenter := 3 ≤ r ∧ r ≤ 6 ∧ 3 ≤ c ∧ c ≤ 6
    if central then decide inCenter else decide ¬inCenter

/-- Embedding of the body of `randSeq`'s `while (seq.length < len)` loop.
The JS loop draws `available[Math.floor(Math.random() * available.length)]`
each iteration; here the random draws are the explicit stream `rs`, the
drawn element is `available[r % available.length]`, and the accumulated
output is `acc` (which doubles as the `used` set, since its elements are
distinct).  Exhausting the stream before the loop's guard is satisfied
yields `none`: the loop is still running. -/
def randSeqAux (available : List Nat) (len : Nat) : List Nat → List Nat → Option (List Nat)
  | [], acc => if len ≤ acc.length then some acc else none
  | r :: rs, acc =>
    if len ≤ acc.length then some acc
    else
      let idx := available.getD (r % available.length) 0
      if idx ∈ acc then randSeqAux available len rs acc
      else randSeqAux available len rs (acc ++ [idx])

/-- Embedding of `randSeq len region` run against the draw stream `rs`. -/
def randSeq (len : Nat) (available : List Nat) (rs : List Nat) : Option (List Nat) :=
  randSeqAux available len rs []

/-- The generation call terminates for some sequence of random draws. -/
def randSeqTerminates (len : Nat) (available : List Nat) : Prop :=
  ∃ rs l, randSeq len available rs = some l

/-! ## Reaction-window difficulty controller
(unnamed/part_001 ColorReactionGame `adaptDifficulty`, lines 117–139;
SaccadicGame.jsx ColorReactionGameEdges `adaptDifficulty`, lines 101–123) -/

/-- The mutable counters `adaptDifficulty` reads besides the current
window: the full reaction-time list and the cumulative miss/error/shown
counters. -/
structure AdaptEnv where
  reactionList : List Int
  misses : Nat
  errors : Nat
  totalShown : Nat
deriving Repr, DecidableEq

/-- `recentHits.length ? recentHits.sum / recentHits.length : window`
where `recentHits = reactionList.slice(-10)`. -/
def avgRecent (w : Int) (reactionList : List Int) : ℚ :=
  let recent := reactionList.drop (reactionList.length - 10)
  if recent.length = 0 then (w : ℚ)
  else (recent.sum : ℚ) / (recent.length : ℚ)

/-- Embedding of the body of `adaptDifficulty`: the new reaction window
computed from the current window `w` and the counters `e`.  `0.05`,
`0.15`, `0.9` and `1.1` are modelled as exact rationals. -/
def adaptStep (w : Int) (e : AdaptEnv) : Int :=
  let avg := avgRecent w e.reactionList
  let missRate : ℚ := (e.misses : ℚ) / ((max 1 e.totalShown : Nat) : ℚ)
  let errorRate : ℚ := (e.errors : ℚ) / ((max 1 e.totalShown : Nat) : ℚ)
  let targetWindow := max 400 (round (avg * (9 / 10)))
  if missRate < 1 / 20 ∧ errorRate < 1 / 20 ∧ avg < (w : ℚ) then
    max 400 targetWindow
  else if 3 / 20 < missRate ∨ 3 / 20 < errorRate then
    min 1200 (round ((w : ℚ) * (11 / 10)))
  else w

/-- The successive window values produced by running `adaptStep` from
window `w` over the counter snapshots `envs`, including the start value:
this is exactly the game's `adaptHistoryRef` contents (initially
`[800]`, one value appended per `adaptDifficulty` call). -/
def windowTrace (w : Int) : List AdaptEnv → List Int
  | [] => [w]
  | e :: es => w :: windowTrace (adaptStep w e) es

/-! ## Go/no-go engine state and handlers
(unnamed/part_001 ColorReactionGame, lines 25–267) -/

/-- An active stimulus (`{id, idx, color, shownAt, ...}`); `green = true`
is the "go" color, `green = false` the "no-go" color red. -/
structure Stim where
  sid : Nat
  idx : Nat
  green : Bool
  shownAt : Nat
deriving Repr, DecidableEq

/-- An event emitted through `emitEvent` by the modelled handlers. -/
inductive GEvent where
  | errEmpty (idx : Nat) : GEvent
  | hit (idx : Nat) (reactionMs : Int) : GEvent
  | err (idx : Nat) : GEvent
  | miss (idx : Nat) : GEvent
  | adapt (reactionWindowMs : Int) : GEvent
deriving Repr, DecidableEq

/-- The mutable state of ColorReactionGame: the `running` flag, the
active-stimuli list, the counters and lists held in refs, and the
emitted events.  `spawnQueueCount` counts `queueSpawn()` calls and
`stopCalled` records that the handler invoked `stop()`. -/
structure GoNoGoState where
  running : Bool
  stimuli : List Stim
  hits : Nat
  errors : Nat
  misses : Nat
  reactionList : List Int
  distanceList : List Nat
  reactionWindowMs : Int
  adaptHistory : List Int
  totalShown : Nat
  events : List GEvent
  spawnQueueCount : Nat
  stopCalled : Bool
deriving Repr, DecidableEq

/-- TOTAL_STIMULI in both go/no-go games. -/
def TOTAL_STIMULI : Nat := 50

/-- The counter snapshot `adaptDifficulty` reads from the game state. -/
def envOf (s : GoNoGoState) : AdaptEnv :=
  ⟨s.reactionList, s.misses, s.errors, s.totalShown⟩

/-- Embedding of `adaptDifficulty` (unnamed/part_001 lines 117–139): the
window is recomputed by `adaptStep`, the new value is appended to the
adaptation history, and an ADAPT event is emitted. -/
def adaptDifficulty (s : GoNoGoState) : GoNoGoState :=
  let w := adaptStep s.reactionWindowMs (envOf s)
  { s with reactionWindowMs := w
           adaptHistory := s.adaptHistory ++ [w]
           events := s.events ++ [.adapt w] }

/-- The common tail of the click and expiry handlers: remove the
concluded stimulus, call `queueSpawn()` if still running with stimuli
left to show, and call `stop()` once everything has been shown and no
stimulus remains active. -/
def concludeStim (s : GoNoGoState) (sid : Nat) : GoNoGoState :=
  let remaining := s.stimuli.filter fun st => st.sid != sid
  let s1 := { s with stimuli := remaining }
  let s2 :=
    if s1.running ∧ s1.totalShown < TOTAL_STIMULI then
      { s1 with spawnQueueCount := s1.spawnQueueCount + 1 }
    else s1
  if TOTAL_STIMULI ≤ s2.totalShown ∧ remaining = [] then
    { s2 with stopCalled := true }
  else s2

/-- Embedding of ColorReactionGame's `onCellClick` (unnamed/part_001
lines 211–267).  `now` is the click's `Date.now()` value and `dist` the
pointer-to-cell-centre distance computed from the live layout.  Not
running: return untouched.  Empty cell: error.  Otherwise classify
against the stimulus found at the cell (preferring a green one), count a
hit iff it is green and the elapsed time is within the reaction window,
push the reaction time, and run `adaptDifficulty` when the updated
`hits + errors + misses` is a multiple of 10 — a check made only in the
hit branch; any other click is an error. -/
def goClick (s : GoNoGoState) (now cell dist : Nat) : GoNoGoState :=
  if s.running = false then s
  else
    match s.stimuli.filter (fun st => st.idx == cell) with
    | [] => { s with errors := s.errors + 1, events := s.events ++ [.errEmpty cell] }
    | a :: rest =>
      let stim := ((a :: rest).find? (fun st => st.green)).getD a
      let rt : Int := (now : Int) - (stim.shownAt : Int)
      let s1 :=
        if stim.green = true ∧ rt ≤ s.reactionWindowMs then
          let s2 := { s with hits := s.hits + 1
                             reactionList := s.reactionList ++ [rt]
                             distanceList := s.distanceList ++ [dist]
                             events := s.events ++ [.hit stim.idx rt] }
          if (s2.hits + s2.errors + s2.misses) % 10 = 0 then adaptDifficulty s2 else s2
        else { s with errors := s.errors + 1, events := s.events ++ [.err stim.idx] }
      concludeStim s1 stim.sid

/-- Embedding of the stimulus display-timer callback (unnamed/part_001
lines 152–165): if the stimulus with id `sid` is still active, a green
one counts as a miss (red expiry counts nothing), then the stimulus is
removed and the spawn/stop tail runs. -/
def onExpiry (s : GoNoGoState) (sid : Nat) : GoNoGoState :=
  match s.stimuli.find? (fun st => st.sid == sid) with
  | none => s
  | some stim =>
    let s1 :=
      if stim.green = true then
        { s with misses := s.misses + 1, events := s.events ++ [.miss stim.idx] }
      else s
    concludeStim s1 stim.sid

/-! ## Five-target reaching game
(FiveTargetReactionGame.jsx, lines 12–183) -/

/-- A target of the current set (`{id, idx, color, clicked}`); the color
is irrelevant to the click logic and tracked only as an index. -/
structure FiveStim where
  idx : Nat
  clicked : Bool
deriving Repr, DecidableEq

/-- An event emitted by FiveTargetReactionGame's click handler. -/
inductive FEvent where
  | errEmpty (idx : Nat) : FEvent
  | hit (idx rt dist : Nat) : FEvent
deriving Repr, DecidableEq

/-- TARGETS_PER_SET in FiveTargetReactionGame. -/
def TARGETS_PER_SET : Nat := 5

/-- The mutable state of FiveTargetReactionGame touched by
`onCellClick`; `spawnScheduled` records that a `setTimeout(spawnSet)`
was issued. -/
structure FiveState where
  running : Bool
  stimuli : List FiveStim
  hits : Nat
  errors : Nat
  reactionList : List Nat
  distanceList : List Nat
  clickedCount : Nat
  currentSet : Nat
  colorIdx : Nat
  events : List FEvent
  spawnScheduled : Bool
deriving Repr, DecidableEq

/-- Embedding of FiveTargetReactionGame's `onCellClick` (lines 134–183).
`rt` and `dist` stand for the reaction time and pointer distance the
handler computes from the clock and live layout.  Not running: return.
No stimulus at the cell: error.  Stimulus already clicked: plain
`return` before any mutation.  Otherwise count a hit, record the
reaction time and distance, mark the stimulus clicked, and when the
clicked count reaches a multiple of TARGETS_PER_SET advance the set and
colour and schedule `spawnSet`. -/
def fiveClick (s : FiveState) (cell rt dist : Nat) : FiveState :=
  if s.running = false then s
  else
    match s.stimuli.find? (fun st => st.idx == cell) with
    | none => { s with errors := s.errors + 1, events := s.events ++ [.errEmpty cell] }
    | some stim =>
      if stim.clicked = true then s
      else
        let s1 := { s with hits := s.hits + 1
                           clickedCount := s.clickedCount + 1
                           reactionList := s.reactionList ++ [rt]
                           distanceList := s.distanceList ++ [dist]
                           events := s.events ++ [.hit cell rt dist]
                           stimuli := s.stimuli.map fun st =>
                             if st.idx == cell then { st with clicked := true } else st }
        if s1.clickedCount % TARGETS_PER_SET = 0 then
          { s1 with currentSet := s1.currentSet + 1
                    colorIdx := s1.colorIdx + 1
                    spawnScheduled := true }
        else s1

/-! ## Central–peripheral span-task engine
(Central–PeripheralSpanTask.jsx, lines 4–122) -/

/-- The presentation state machine's phase. -/
inductive Phase where
  | idle : Phase
  | present : Phase
  | respond : Phase
  | between : Phase
deriving Repr, DecidableEq

/-- One entry of `logsRef`: `{ts, i, correct, block, pos}`. -/
structure SpanLog where
  ts : Nat
  i : Nat
  correct : Bool
  block : Nat
  pos : Nat
deriving Repr, DecidableEq

/-- SEQS_PER_BLOCK in Central–PeripheralSpanTask. -/
def SEQS_PER_BLOCK : Nat := 10

/-- The mutable state of Central–PeripheralSpanTask touched by
`onCellClick` and `finishTrial`.  `scoreEmitted` records the `emitScore`
call at session end and `pendingStart` a scheduled
`setTimeout(() => startTrial len)`. -/
structure SpanState where
  running : Bool
  phase : Phase
  blockIdx : Nat
  trialIdx : Nat
  seq : List Nat
  replayPos : Nat
  seqLen : Int
  spanMaxCentral : Nat
  spanMaxPeripheral : Nat
  logs : List SpanLog
  scoreEmitted : Bool
  pendingStart : Option Int
deriving Repr, DecidableEq

/-- Embedding of `finishTrial` (Central–PeripheralSpanTask.jsx lines
69–101): update the block's best span on success, advance the sequence
length through `nextLen`, then either end the session (last trial of the
last block: running := false, phase := idle, report emitted), start the
next block, or schedule the next trial of the current block. -/
def finishTrial (s : SpanState) (ok : Bool) : SpanState :=
  let s0 :=
    if ok then
      if s.blockIdx = 0 then { s with spanMaxCentral := max s.spanMaxCentral s.seq.length }
      else { s with spanMaxPeripheral := max s.spanMaxPeripheral s.seq.length }
    else s
  let nl := nextLen s.seqLen ok
  let s1 := { s0 with seqLen := nl }
  if SEQS_PER_BLOCK ≤ s.trialIdx + 1 then
    if 2 ≤ s.blockIdx + 1 then
      { s1 with running := false, phase := .idle, scoreEmitted := true }
    else
      { s1 with blockIdx := s.blockIdx + 1, trialIdx := 0, seqLen := 3,
                phase := .between, pendingStart := some 3 }
  else
    { s1 with trialIdx := s.trialIdx + 1, phase := .between, pendingStart := some nl }

/-- Embedding of Central–PeripheralSpanTask's `onCellClick` (lines
103–111): a click on cell `i` at time `now`.  Outside the respond phase
the handler returns before touching anything.  Otherwise the click is
logged, a correct click advances the position or finishes the trial as
correct at the last position, and an incorrect click finishes the trial
as incorrect. -/
def spanClick (s : SpanState) (i now : Nat) : SpanState :=
  if s.phase ≠ Phase.respond then s
  else
    let correct := s.seq.get? s.replayPos = some i
    let s0 := { s with logs := s.logs ++ [⟨now, i, decide correct, s.blockIdx, s.replayPos⟩] }
    if correct then
      if s.seq.length ≤ s.replayPos + 1 then finishTrial s0 true
      else { s0 with replayPos := s.replayPos + 1 }
    else finishTrial s0 false

/-- The sites in Central–PeripheralSpanTask that write `running` or
`phase`, as a transition relation on the pair (running, phase):
`start` (lines 113–122) turns the not-running engine on in phase
`between`; the scheduled `startTrial`/`presentSeq` (line 51) moves
`between` to `present`; the final presentation timer (line 59) moves
`present` to `respond`; a click in `respond` either advances within
`respond` (line 109), moves to `between` for the next trial or block
(`finishTrial`, lines 93, 98), or ends the session at the last trial of
the last block (lines 77–78).  Timers are only pending while the engine
runs, so the non-start transitions carry `running = true`. -/
inductive FlagStep : Bool × Phase → Bool × Phase → Prop where
  | start (p : Phase) : FlagStep (false, p) (true, .between)
  | beginPresent : FlagStep (true, .between) (true, .present)
  | presentDone : FlagStep (true, .present) (true, .respond)
  | advance : FlagStep (true, .respond) (true, .respond)
  | nextTrial : FlagStep (true, .respond) (true, .between)
  | endSession : FlagStep (true, .respond) (false, .idle)

/-- The (running, phase) pairs reachable from the initial state
`(false, idle)` through `FlagStep`. -/
inductive ReachFlags : Bool × Phase → Prop where
  | init : ReachFlags (false, .idle)
  | step {a b : Bool × Phase} : ReachFlags a → FlagStep a b → ReachFlags b

/-! ## Theorems -/


theorem runTrial_drop (s : List Nat) : ∀ (n pos : Nat), s.length - pos = n → pos < s.length →
    runTrial s pos (s.drop pos) = (.correct, []) := by
  intro n
  induction n with
  | zero => intro pos h hlt; omega
  | succ n ih =>
    intro pos h hlt
    rw [List.drop_eq_getElem_cons hlt, runTrial]
    rw [List.get?_eq_getElem?, List.getElem?_eq_getElem hlt, if_pos rfl]
    by_cases hl : s.length ≤ pos + 1
    · rw [if_pos hl]
      have : s.drop (pos + 1) = [] := List.drop_eq_nil_of_le hl
      rw [this]
    · rw [if_neg hl]
      exact ih (pos + 1) (by omega) (by omega)

/-- Claim C2 (confirmed): in a span trial with expected sequence `s`, a
response at position `pos` is classified correct iff it equals `s[pos]`;
a correct response advances the position; answering every position
correctly yields outcome `correct`; and the first incorrect response
immediately concludes the trial as `incorrectAt pos`, consuming no
further responses — in particular, for `s = [4, 17, 82]` the responses
`[4, 17, 82]` give `correct` and `[4, 99]` give incorrect at
position 1. -/
theorem claim_C2 :
    (∀ (s : List Nat) (pos r : Nat) (rs : List Nat), s.get? pos ≠ some r →
        runTrial s pos (r :: rs) = (.incorrectAt pos, rs)) ∧
    (∀ (s : List Nat) (pos r : Nat) (rs : List Nat), s.get? pos = some r → pos + 1 < s.length →
        runTrial s pos (r :: rs) = runTrial s (pos + 1) rs) ∧
    (∀ (s : List Nat) (pos r : Nat) (rs : List Nat), s.get? pos = some r → s.length ≤ pos + 1 →
        runTrial s pos (r :: rs) = (.correct, rs)) ∧
    (∀ s : List Nat, s ≠ [] → runTrial s 0 s = (.correct, [])) ∧
    runTrial [4, 17, 82] 0 [4, 17, 82] = (.correct, []) ∧
    runTrial [4, 17, 82] 0 [4, 99] = (.incorrectAt 1, []) := by
  refine ⟨?_, ?_, ?_, ?_, by decide, by decide⟩
  · intro s pos r rs h
    rw [runTrial, if_neg h]
  · intro s pos r rs h hl
    rw [runTrial, if_pos h, if_neg (by omega)]
  · intro s pos r rs h hl
    rw [runTrial, if_pos h, if_pos hl]
  · intro s hne
    have hlt : 0 < s.length := List.length_pos.mpr hne
    have := runTrial_drop s (s.length - 0) 0 rfl hlt
    simpa using this

theorem claim_C2_witness :
    runTrial [4, 17, 82] 0 [4, 17, 82] = (.correct, []) ∧
    runTrial [4, 17, 82] 0 [5, 99] = (.incorrectAt 0, [99]) :=
  ⟨claim_C2.2.2.2.1 [4, 17, 82] (by decide), claim_C2.1 [4, 17, 82] 0 5 [99] (by decide)⟩

/-- Claim C4 (confirmed): the span difficulty update is
`nextLen = clamp(len + (ok ? +1 : -1), 2, 7)`, a pure function of the
preceding outcome, always lands in [2, 7], and is idempotent at the
bounds: from 3, five correct trials trace 3,4,5,6,7,7; from 7, six
incorrect trials trace 7,6,5,4,3,2,2. -/
theorem claim_C4 :
    (∀ (len : Int) (ok : Bool), 2 ≤ nextLen len ok ∧ nextLen len ok ≤ 7) ∧
    (∀ (len : Int) (ok : Bool), nextLen len ok = max 2 (min 7 (len + if ok then 1 else -1))) ∧
    lenTrace 3 [true, true, true, true, true] = [3, 4, 5, 6, 7, 7] ∧
    lenTrace 7 [false, false, false, false, false, false] = [7, 6, 5, 4, 3, 2, 2] ∧
    nextLen 7 true = 7 ∧ nextLen 2 false = 2 := by
  refine ⟨?_, fun len ok => rfl, by decide, by decide, by decide, by decide⟩
  intro len ok
  exact ⟨le_max_left _ _, max_le (by norm_num) (min_le_left _ _)⟩

theorem presentAux_length (arr : List Nat) : ∀ t, (presentAux t arr).length = 2 * arr.length + 1 := by
  induction arr with
  | nil => intro t; rfl
  | cons c cs ih => intro t; simp only [presentAux, List.length_cons, ih]; omega

theorem presentAux_head (arr : List Nat) (t : Nat) :
    ∃ ev rest, presentAux t arr = (t, ev) :: rest := by
  cases arr <;> exact ⟨_, _, rfl⟩

theorem presentAux_chain (arr : List Nat) : ∀ t, List.Chain' (fun a b => a.1 < b.1) (presentAux t arr) := by
  induction arr with
  | nil => intro t; exact List.chain'_singleton _
  | cons c cs ih =>
    intro t
    obtain ⟨ev, rest, heq⟩ := presentAux_head cs (t + ON_MS + GAP_MS)
    rw [presentAux, heq]
    refine List.chain'_cons.mpr ⟨by simp [ON_MS], List.chain'_cons.mpr ⟨?_, ?_⟩⟩
    · simp [ON_MS, GAP_MS]
    · rw [← heq]; exact ih _

theorem presentAux_onset (arr : List Nat) : ∀ (k c : Nat), arr.get? k = some c → ∀ t,
    (presentAux t arr).get? (2 * k) = some (t + k * (ON_MS + GAP_MS), .onset c) ∧
    (presentAux t arr).get? (2 * k + 1) = some (t + k * (ON_MS + GAP_MS) + ON_MS, .stimOff) := by
  induction arr with
  | nil => intro k c h; simp at h
  | cons x xs ih =>
    intro k c h t
    cases k with
    | zero =>
      simp only [List.get?_cons_zero, Option.some_inj] at h
      subst h
      simp [presentAux]
    | succ k =>
      have h' : xs.get? k = some c := by simpa using h
      have hrec := ih k c h' (t + ON_MS + GAP_MS)
      have e1 : 2 * (k + 1) = 2 * k + 1 + 1 := by ring
      have e2 : 2 * (k + 1) + 1 = (2 * k + 1) + 1 + 1 := by ring
      have e3 : t + (k + 1) * (ON_MS + GAP_MS) = t + ON_MS + GAP_MS + k * (ON_MS + GAP_MS) := by ring
      constructor
      · rw [presentAux, e1, e3, List.get?_cons_succ, List.get?_cons_succ]
        exact hrec.1
      · rw [presentAux, e2, e3, List.get?_cons_succ, List.get?_cons_succ]
        exact hrec.2

theorem presentAux_done (arr : List Nat) : ∀ t,
    (presentAux t arr).get? (2 * arr.length) = some (t + arr.length * (ON_MS + GAP_MS), .phaseRespond) := by
  induction arr with
  | nil => intro t; simp [presentAux]
  | cons x xs ih =>
    intro t
    have e1 : 2 * (x :: xs).length = 2 * xs.length + 1 + 1 := by simp [List.length_cons]; ring
    have e3 : t + (x :: xs).length * (ON_MS + GAP_MS) = t + ON_MS + GAP_MS + xs.length * (ON_MS + GAP_MS) := by
      simp [List.length_cons]; ring
    rw [presentAux, e1, e3, List.get?_cons_succ, List.get?_cons_succ]
    exact ih _

/-- Claim C9 (confirmed): presenting a sequence of length n schedules
2n + 1 callbacks with strictly increasing cumulative delays; the k-th
element's onset fires at k * (ON_MS + GAP_MS) (zero-based k), its offset
ON_MS later, and the phase change to respond at exactly
n * (ON_MS + GAP_MS), so the callbacks fire in program order. -/
theorem claim_C9 :
    (∀ arr : List Nat, (presentSchedule arr).length = 2 * arr.length + 1) ∧
    (∀ arr : List Nat, List.Chain' (fun a b => a.1 < b.1) (presentSchedule arr)) ∧
    (∀ (arr : List Nat) (k c : Nat), arr.get? k = some c →
        (presentSchedule arr).get? (2 * k) = some (k * (ON_MS + GAP_MS), .onset c) ∧
        (presentSchedule arr).get? (2 * k + 1) = some (k * (ON_MS + GAP_MS) + ON_MS, .stimOff)) ∧
    (∀ arr : List Nat,
        (presentSchedule arr).get? (2 * arr.length) = some (arr.length * (ON_MS + GAP_MS), .phaseRespond)) := by
  refine ⟨fun arr => presentAux_length arr 0, fun arr => presentAux_chain arr 0, ?_, ?_⟩
  · intro arr k c h
    have := presentAux_onset arr k c h 0
    simpa [presentSchedule] using this
  · intro arr
    have := presentAux_done arr 0
    simpa [presentSchedule] using this

theorem claim_C9_witness :
    (presentSchedule [4, 17, 82]).get? 2 = some (1000, .onset 17) ∧
    (presentSchedule [4, 17, 82]).get? 3 = some (1600, .stimOff) := by
  have h := claim_C9.2.2.1 [4, 17, 82] 1 17 (by decide)
  constructor
  · have := h.1
    norm_num [ON_MS, GAP_MS] at this
    exact this
  · have := h.2
    norm_num [ON_MS, GAP_MS] at this
    exact this

/-- Claim C10 (confirmed): in the five-target reaching game, a click on
a target cell whose stimulus was already clicked is a complete no-op:
the returned state — counters, reaction-time and distance lists, clicked
count, set counter, stimulus list, emitted events and spawn flag — is
exactly the input state. -/
theorem claim_C10 (s : FiveState) (cell rt dist : Nat) (st : FiveStim)
    (hrun : s.running = true)
    (hfind : s.stimuli.find? (fun x => x.idx == cell) = some st)
    (hcl : st.clicked = true) :
    fiveClick s cell rt dist = s := by
  unfold fiveClick
  rw [hrun]
  simp [hfind, hcl]

theorem claim_C10_witness :
    fiveClick ⟨true, [⟨3, true⟩], 1, 0, [12], [3], 1, 0, 0, [], false⟩ 3 10 2
      = ⟨true, [⟨3, true⟩], 1, 0, [12], [3], 1, 0, 0, [], false⟩ :=
  claim_C10 _ 3 10 2 ⟨3, true⟩ rfl (by decide) rfl

theorem reachFlags_not_running {a : Bool × Phase} (h : ReachFlags a) :
    a.1 = false → a.2 = Phase.idle := by
  induction h with
  | init => intro; rfl
  | step _ hs ih => cases hs <;> simp_all

/-- Claim C8 (confirmed): a click delivered outside the respond phase
(span task) or while the engine is not running (go/no-go game) is
silently ignored: the state, including all counters, logs and emitted
events, is returned unchanged.  Moreover in the span task every
reachable flag state with `running = false` has phase idle, so a click
while not running is likewise a no-op. -/
theorem claim_C8 :
    (∀ (s : SpanState) (i now : Nat), s.phase ≠ Phase.respond → spanClick s i now = s) ∧
    (∀ (g : GoNoGoState) (now cell dist : Nat), g.running = false → goClick g now cell dist = g) ∧
    (∀ (r : Bool) (p : Phase), ReachFlags (r, p) → r = false → p = Phase.idle) ∧
    (∀ (s : SpanState) (i now : Nat), ReachFlags (s.running, s.phase) → s.running = false →
        spanClick s i now = s) := by
  have h1 : ∀ (s : SpanState) (i now : Nat), s.phase ≠ Phase.respond → spanClick s i now = s := by
    intro s i now h
    unfold spanClick
    rw [if_pos h]
  refine ⟨h1, ?_, ?_, ?_⟩
  · intro g now cell dist h
    unfold goClick
    rw [if_pos h]
  · intro r p h hr
    exact reachFlags_not_running h hr
  · intro s i now hreach hr
    apply h1
    have := reachFlags_not_running hreach hr
    simp only at this
    rw [this]
    simp

theorem claim_C8_witness :
    spanClick ⟨true, Phase.present, 0, 0, [1, 2, 3], 0, 3, 0, 0, [], false, none⟩ 5 0
      = ⟨true, Phase.present, 0, 0, [1, 2, 3], 0, 3, 0, 0, [], false, none⟩ ∧
    goClick ⟨false, [], 0, 0, 0, [], [], 800, [800], 0, [], 0, false⟩ 0 0 0
      = ⟨false, [], 0, 0, 0, [], [], 800, [800], 0, [], 0, false⟩ :=
  ⟨claim_C8.1 _ 5 0 (by decide), claim_C8.2.1 _ 0 0 0 rfl⟩


theorem concludeStim_counters (s : GoNoGoState) (sid : Nat) :
    (concludeStim s sid).hits = s.hits ∧ (concludeStim s sid).errors = s.errors ∧
    (concludeStim s sid).misses = s.misses ∧ (concludeStim s sid).reactionList = s.reactionList ∧
    (concludeStim s sid).adaptHistory = s.adaptHistory ∧
    (concludeStim s sid).reactionWindowMs = s.reactionWindowMs := by
  unfold concludeStim
  dsimp only
  split_ifs <;> simp

theorem adaptDifficulty_counters (s : GoNoGoState) :
    (adaptDifficulty s).hits = s.hits ∧ (adaptDifficulty s).errors = s.errors ∧
    (adaptDifficulty s).misses = s.misses ∧ (adaptDifficulty s).reactionList = s.reactionList :=
  ⟨rfl, rfl, rfl, rfl⟩

theorem concludeStim_hits (s : GoNoGoState) (sid : Nat) : (concludeStim s sid).hits = s.hits :=
  (concludeStim_counters s sid).1

theorem concludeStim_errors (s : GoNoGoState) (sid : Nat) : (concludeStim s sid).errors = s.errors :=
  (concludeStim_counters s sid).2.1

theorem concludeStim_misses (s : GoNoGoState) (sid : Nat) : (concludeStim s sid).misses = s.misses :=
  (concludeStim_counters s sid).2.2.1

theorem concludeStim_rts (s : GoNoGoState) (sid : Nat) : (concludeStim s sid).reactionList = s.reactionList :=
  (concludeStim_counters s sid).2.2.2.1

theorem concludeStim_hist (s : GoNoGoState) (sid : Nat) : (concludeStim s sid).adaptHistory = s.adaptHistory :=
  (concludeStim_counters s sid).2.2.2.2.1
theorem goClick_single (s : GoNoGoState) (now cell dist : Nat) (st : Stim)
    (hrun : s.running = true) (hstim : s.stimuli = [st]) :
    (st.idx = cell ∧ st.green = true ∧ (now : Int) - (st.shownAt : Int) ≤ s.reactionWindowMs →
      (goClick s now cell dist).hits = s.hits + 1 ∧
      (goClick s now cell dist).errors = s.errors ∧
      (goClick s now cell dist).reactionList = s.reactionList ++ [(now : Int) - (st.shownAt : Int)]) ∧
    (¬(st.idx = cell ∧ st.green = true ∧ (now : Int) - (st.shownAt : Int) ≤ s.reactionWindowMs) →
      (goClick s now cell dist).hits = s.hits ∧
      (goClick s now cell dist).errors = s.errors + 1) := by
  constructor
  · rintro ⟨hidx, hgreen, hwin⟩
    have hfilter : List.filter (fun x => x.idx == cell) s.stimuli = [st] := by
      rw [hstim]; simp [List.filter_cons, hidx]
    simp only [goClick, hrun, Bool.true_eq_false, if_false, hfilter, List.find?, hgreen]
    rw [if_pos ⟨hgreen, hwin⟩]
    by_cases hmod : ((s.hits + 1) + s.errors + s.misses) % 10 = 0
    · rw [if_pos hmod]
      simp [concludeStim_hits, concludeStim_errors, concludeStim_rts, adaptDifficulty_counters]
    · rw [if_neg hmod]
      simp [concludeStim_hits, concludeStim_errors, concludeStim_rts]
  · intro hneg
    by_cases hidx : st.idx = cell
    · have hfilter : List.filter (fun x => x.idx == cell) s.stimuli = [st] := by
        rw [hstim]; simp [List.filter_cons, hidx]
      cases hg : st.green with
      | false =>
        simp only [goClick, hrun, Bool.true_eq_false, if_false, hfilter, List.find?, hg]
        rw [if_neg (by simp [hg])]
        simp [concludeStim_errors, concludeStim_hits]
      | true =>
        have hwin' : ¬((now : Int) - (st.shownAt : Int) ≤ s.reactionWindowMs) :=
          fun hb => hneg ⟨hidx, hg, hb⟩
        simp only [goClick, hrun, Bool.true_eq_false, if_false, hfilter, List.find?, hg]
        rw [if_neg (fun hand => hwin' hand.2)]
        simp [concludeStim_errors, concludeStim_hits]
    · have hfilter : List.filter (fun x => x.idx == cell) s.stimuli = [] := by
        rw [hstim]; simp [List.filter_cons, hidx]
      simp only [goClick, hrun, Bool.true_eq_false, if_false, hfilter]
      simp

theorem goClick_empty (s : GoNoGoState) (now cell dist : Nat)
    (hrun : s.running = true) (hstim : s.stimuli = []) :
    (goClick s now cell dist).errors = s.errors + 1 ∧ (goClick s now cell dist).hits = s.hits := by
  simp only [goClick, hrun, Bool.true_eq_false, if_false, hstim, List.filter_nil]
  simp

theorem onExpiry_single (s : GoNoGoState) (st : Stim) (hstim : s.stimuli = [st])
    (hg : st.green = true) :
    (onExpiry s st.sid).misses = s.misses + 1 := by
  simp only [onExpiry, hstim, List.find?, beq_self_eq_true, hg]
  simp [concludeStim_misses]

/-- Claim C3 (confirmed): in the go/no-go games, a click while running
is a hit iff it targets the displayed stimulus's cell, the stimulus is
green, and the elapsed time since onset is within the reaction window —
then hits increments and the reaction time is recorded; otherwise (red
stimulus, late click, or empty cell) errors increments; and a green
stimulus whose display timer expires unanswered increments misses. -/
theorem claim_C3 :
    (∀ (s : GoNoGoState) (now cell dist : Nat) (st : Stim),
      s.running = true → s.stimuli = [st] →
      (st.idx = cell ∧ st.green = true ∧ (now : Int) - (st.shownAt : Int) ≤ s.reactionWindowMs →
        (goClick s now cell dist).hits = s.hits + 1 ∧
        (goClick s now cell dist).errors = s.errors ∧
        (goClick s now cell dist).reactionList = s.reactionList ++ [(now : Int) - (st.shownAt : Int)]) ∧
      (¬(st.idx = cell ∧ st.green = true ∧ (now : Int) - (st.shownAt : Int) ≤ s.reactionWindowMs) →
        (goClick s now cell dist).hits = s.hits ∧
        (goClick s now cell dist).errors = s.errors + 1)) ∧
    (∀ (s : GoNoGoState) (now cell dist : Nat), s.running = true → s.stimuli = [] →
      (goClick s now cell dist).errors = s.errors + 1 ∧ (goClick s now cell dist).hits = s.hits) ∧
    (∀ (s : GoNoGoState) (st : Stim), s.stimuli = [st] → st.green = true →
      (onExpiry s st.sid).misses = s.misses + 1) :=
  ⟨fun s now cell dist st hrun hstim => goClick_single s now cell dist st hrun hstim,
   fun s now cell dist hrun hstim => goClick_empty s now cell dist hrun hstim,
   fun s st hstim hg => onExpiry_single s st hstim hg⟩

theorem claim_C3_witness :
    (goClick ⟨true, [⟨1, 5, true, 1000⟩], 0, 0, 0, [], [], 800, [800], 1, [], 0, false⟩ 1300 5 0).hits = 1 ∧
    (onExpiry ⟨true, [⟨1, 5, true, 1000⟩], 0, 0, 0, [], [], 800, [800], 1, [], 0, false⟩ 1).misses = 1 := by
  constructor
  · have h := (claim_C3.1 ⟨true, [⟨1, 5, true, 1000⟩], 0, 0, 0, [], [], 800, [800], 1, [], 0, false⟩
      1300 5 0 ⟨1, 5, true, 1000⟩ rfl rfl).1 (by norm_num)
    exact h.1
  · exact claim_C3.2.2 ⟨true, [⟨1, 5, true, 1000⟩], 0, 0, 0, [], [], 800, [800], 1, [], 0, false⟩
      ⟨1, 5, true, 1000⟩ rfl rfl

theorem roundQ_mono {x y : ℚ} (h : x ≤ y) : round x ≤ round y := by
  rw [round_eq, round_eq]
  exact Int.floor_mono (by linarith)

theorem adaptStep_bounds (w : Int) (e : AdaptEnv) (h1 : 400 ≤ w) (h2 : w ≤ 1200) :
    400 ≤ adaptStep w e ∧ adaptStep w e ≤ 1200 := by
  unfold adaptStep
  dsimp only
  split_ifs with hA hB
  · constructor
    · exact le_max_left _ _
    · refine max_le (by norm_num) (max_le (by norm_num) ?_)
      have havg : avgRecent w e.reactionList ≤ 1200 := by
        have := hA.2.2
        have hw : (w : ℚ) ≤ 1200 := by exact_mod_cast h2
        linarith
      have : avgRecent w e.reactionList * (9 / 10) ≤ (1080 : ℚ) := by linarith
      have hr := roundQ_mono this
      have h1080 : round ((1080 : ℚ)) = 1080 := by
        norm_num [round_eq]
      omega
  · constructor
    · refine le_min (by norm_num) ?_
      have : (440 : ℚ) ≤ (w : ℚ) * (11 / 10) := by
        have hw : (400 : ℚ) ≤ (w : ℚ) := by exact_mod_cast h1
        linarith
      have hr := roundQ_mono this
      have h440 : round ((440 : ℚ)) = 440 := by norm_num [round_eq]
      omega
    · exact min_le_left _ _
  · exact ⟨h1, h2⟩

theorem windowTrace_bounds : ∀ (envs : List AdaptEnv) (w0 : Int), 400 ≤ w0 → w0 ≤ 1200 →
    ∀ w ∈ windowTrace w0 envs, 400 ≤ w ∧ w ≤ 1200 := by
  intro envs
  induction envs with
  | nil =>
    intro w0 h1 h2 w hw
    simp [windowTrace] at hw
    subst hw
    exact ⟨h1, h2⟩
  | cons e es ih =>
    intro w0 h1 h2 w hw
    simp only [windowTrace, List.mem_cons] at hw
    rcases hw with rfl | hw
    · exact ⟨h1, h2⟩
    · have hb := adaptStep_bounds w0 e h1 h2
      exact ih (adaptStep w0 e) hb.1 hb.2 w hw

/-- Claim C5 (confirmed): starting from the initial 800 ms window,
every window value produced by any sequence of adaptation steps — and
hence every value appended to the adaptation history — lies in
[400, 1200], and a single `adaptDifficulty` call preserves these bounds
while appending exactly the new window to the history. -/
theorem claim_C5 :
    (∀ (envs : List AdaptEnv) (w : Int), w ∈ windowTrace 800 envs → 400 ≤ w ∧ w ≤ 1200) ∧
    (∀ s : GoNoGoState, 400 ≤ s.reactionWindowMs → s.reactionWindowMs ≤ 1200 →
      400 ≤ (adaptDifficulty s).reactionWindowMs ∧ (adaptDifficulty s).reactionWindowMs ≤ 1200) ∧
    (∀ s : GoNoGoState,
      (adaptDifficulty s).adaptHistory = s.adaptHistory ++ [(adaptDifficulty s).reactionWindowMs]) :=
  ⟨fun envs w hw => windowTrace_bounds envs 800 (by norm_num) (by norm_num) w hw,
   fun s h1 h2 => adaptStep_bounds s.reactionWindowMs (envOf s) h1 h2,
   fun _ => rfl⟩

theorem claim_C5_witness : 400 ≤ (800 : Int) ∧ (800 : Int) ≤ 1200 :=
  claim_C5.1 [] 800 (by simp [windowTrace])

theorem goClick_hit_adapt (s : GoNoGoState) (now cell dist : Nat) (st : Stim)
    (hrun : s.running = true) (hstim : s.stimuli = [st])
    (hidx : st.idx = cell) (hg : st.green = true)
    (hwin : (now : Int) - (st.shownAt : Int) ≤ s.reactionWindowMs)
    (hmod : (s.hits + 1 + s.errors + s.misses) % 10 = 0) :
    (goClick s now cell dist).adaptHistory
      = s.adaptHistory ++ [adaptStep s.reactionWindowMs
          ⟨s.reactionList ++ [(now : Int) - (st.shownAt : Int)], s.misses, s.errors, s.totalShown⟩] ∧
    (goClick s now cell dist).reactionWindowMs
      = adaptStep s.reactionWindowMs
          ⟨s.reactionList ++ [(now : Int) - (st.shownAt : Int)], s.misses, s.errors, s.totalShown⟩ := by
  have hfilter : List.filter (fun x => x.idx == cell) s.stimuli = [st] := by
    rw [hstim]; simp [List.filter_cons, hidx]
  simp only [goClick, hrun, Bool.true_eq_false, if_false, hfilter, List.find?, hg]
  rw [if_pos ⟨hg, hwin⟩, if_pos (by simpa using hmod)]
  constructor
  · rw [concludeStim_hist]
    rfl
  · rw [(concludeStim_counters _ _).2.2.2.2.2]
    rfl

theorem goClick_hit_no_adapt (s : GoNoGoState) (now cell dist : Nat) (st : Stim)
    (hrun : s.running = true) (hstim : s.stimuli = [st])
    (hidx : st.idx = cell) (hg : st.green = true)
    (hwin : (now : Int) - (st.shownAt : Int) ≤ s.reactionWindowMs)
    (hmod : (s.hits + 1 + s.errors + s.misses) % 10 ≠ 0) :
    (goClick s now cell dist).adaptHistory = s.adaptHistory := by
  have hfilter : List.filter (fun x => x.idx == cell) s.stimuli = [st] := by
    rw [hstim]; simp [List.filter_cons, hidx]
  simp only [goClick, hrun, Bool.true_eq_false, if_false, hfilter, List.find?, hg]
  rw [if_pos ⟨hg, hwin⟩, if_neg (by simpa using hmod)]
  rw [concludeStim_hist]
theorem goClick_nonhit_no_adapt (s : GoNoGoState) (now cell dist : Nat) (st : Stim)
    (hrun : s.running = true) (hstim : s.stimuli = [st])
    (hneg : ¬(st.idx = cell ∧ st.green = true ∧ (now : Int) - (st.shownAt : Int) ≤ s.reactionWindowMs)) :
    (goClick s now cell dist).adaptHistory = s.adaptHistory := by
  by_cases hidx : st.idx = cell
  · have hfilter : List.filter (fun x => x.idx == cell) s.stimuli = [st] := by
      rw [hstim]; simp [List.filter_cons, hidx]
    cases hg : st.green with
    | false =>
      simp only [goClick, hrun, Bool.true_eq_false, if_false, hfilter, List.find?, hg]
      rw [if_neg (by simp [hg])]
      rw [concludeStim_hist]
    | true =>
      have hwin' : ¬((now : Int) - (st.shownAt : Int) ≤ s.reactionWindowMs) :=
        fun hb => hneg ⟨hidx, hg, hb⟩
      simp only [goClick, hrun, Bool.true_eq_false, if_false, hfilter, List.find?, hg]
      rw [if_neg (fun hand => hwin' hand.2)]
      rw [concludeStim_hist]
  · have hfilter : List.filter (fun x => x.idx == cell) s.stimuli = [] := by
      rw [hstim]; simp [List.filter_cons, hidx]
    simp only [goClick, hrun, Bool.true_eq_false, if_false, hfilter]

theorem goClick_empty_no_adapt (s : GoNoGoState) (now cell dist : Nat)
    (hrun : s.running = true) (hstim : s.stimuli = []) :
    (goClick s now cell dist).adaptHistory = s.adaptHistory := by
  simp only [goClick, hrun, Bool.true_eq_false, if_false, hstim, List.filter_nil]

theorem onExpiry_no_adapt (s : GoNoGoState) (sid : Nat) :
    (onExpiry s sid).adaptHistory = s.adaptHistory := by
  unfold onExpiry
  rcases hfe : s.stimuli.find? (fun st => st.sid == sid) with _ | stim
  · rw [hfe]
  · rw [hfe]
    dsimp only
    split_ifs with hg <;> rw [concludeStim_hist]

/-- Claim C6 (corrected): `adaptDifficulty` runs exactly when a hit
brings hits + errors + misses to a multiple of 10, recomputing the
window from the reaction-time list extended with the new hit's reaction
time; a hit off the multiple, an error click (red, late, or empty cell),
and an expiry-miss never recompute the window, even when they bring the
total to a multiple of 10. -/
theorem claim_C6 :
    (∀ (s : GoNoGoState) (now cell dist : Nat) (st : Stim),
      s.running = true → s.stimuli = [st] → st.idx = cell → st.green = true →
      (now : Int) - (st.shownAt : Int) ≤ s.reactionWindowMs →
      (s.hits + 1 + s.errors + s.misses) % 10 = 0 →
      (goClick s now cell dist).adaptHistory
        = s.adaptHistory ++ [adaptStep s.reactionWindowMs
            ⟨s.reactionList ++ [(now : Int) - (st.shownAt : Int)], s.misses, s.errors, s.totalShown⟩] ∧
      (goClick s now cell dist).reactionWindowMs
        = adaptStep s.reactionWindowMs
            ⟨s.reactionList ++ [(now : Int) - (st.shownAt : Int)], s.misses, s.errors, s.totalShown⟩) ∧
    (∀ (s : GoNoGoState) (now cell dist : Nat) (st : Stim),
      s.running = true → s.stimuli = [st] → st.idx = cell → st.green = true →
      (now : Int) - (st.shownAt : Int) ≤ s.reactionWindowMs →
      (s.hits + 1 + s.errors + s.misses) % 10 ≠ 0 →
      (goClick s now cell dist).adaptHistory = s.adaptHistory) ∧
    (∀ (s : GoNoGoState) (now cell dist : Nat) (st : Stim),
      s.running = true → s.stimuli = [st] →
      ¬(st.idx = cell ∧ st.green = true ∧ (now : Int) - (st.shownAt : Int) ≤ s.reactionWindowMs) →
      (goClick s now cell dist).adaptHistory = s.adaptHistory) ∧
    (∀ (s : GoNoGoState) (now cell dist : Nat), s.running = true → s.stimuli = [] →
      (goClick s now cell dist).adaptHistory = s.adaptHistory) ∧
    (∀ (s : GoNoGoState) (sid : Nat), (onExpiry s sid).adaptHistory = s.adaptHistory) :=
  ⟨fun s now cell dist st hrun hstim hidx hg hwin hmod =>
      goClick_hit_adapt s now cell dist st hrun hstim hidx hg hwin hmod,
   fun s now cell dist st hrun hstim hidx hg hwin hmod =>
      goClick_hit_no_adapt s now cell dist st hrun hstim hidx hg hwin hmod,
   fun s now cell dist st hrun hstim hneg =>
      goClick_nonhit_no_adapt s now cell dist st hrun hstim hneg,
   fun s now cell dist hrun hstim => goClick_empty_no_adapt s now cell dist hrun hstim,
   fun s sid => onExpiry_no_adapt s sid⟩

/-- Claim C6 counterexample: the 10th scored response is an error (a click
on a red stimulus), hits + errors + misses reaches 10, yet the adaptation
history is untouched: the window was not recomputed. -/
theorem claim_C6_cex :
    (goClick ⟨true, [⟨1, 5, false, 1000⟩], 9, 0, 0,
        [100, 100, 100, 100, 100, 100, 100, 100, 100], [], 800, [800], 10, [], 0, false⟩
        1100 5 0).hits
      + (goClick ⟨true, [⟨1, 5, false, 1000⟩], 9, 0, 0,
        [100, 100, 100, 100, 100, 100, 100, 100, 100], [], 800, [800], 10, [], 0, false⟩
        1100 5 0).errors
      + (goClick ⟨true, [⟨1, 5, false, 1000⟩], 9, 0, 0,
        [100, 100, 100, 100, 100, 100, 100, 100, 100], [], 800, [800], 10, [], 0, false⟩
        1100 5 0).misses = 10 ∧
    (goClick ⟨true, [⟨1, 5, false, 1000⟩], 9, 0, 0,
        [100, 100, 100, 100, 100, 100, 100, 100, 100], [], 800, [800], 10, [], 0, false⟩
        1100 5 0).errors = 1 ∧
    (goClick ⟨true, [⟨1, 5, false, 1000⟩], 9, 0, 0,
        [100, 100, 100, 100, 100, 100, 100, 100, 100], [], 800, [800], 10, [], 0, false⟩
        1100 5 0).adaptHistory = [800] := by
  refine ⟨by decide, by decide, by decide⟩

theorem claim_C6_witness :
    (goClick ⟨true, [⟨1, 5, true, 1000⟩], 9, 0, 0,
        [100, 100, 100, 100, 100, 100, 100, 100, 100], [], 800, [800], 10, [], 0, false⟩
        1100 5 0).adaptHistory
      = [800] ++ [adaptStep 800
          ⟨[100, 100, 100, 100, 100, 100, 100, 100, 100] ++ [(1100 : Int) - (1000 : Int)],
            0, 0, 10⟩] :=
  (claim_C6.1 _ 1100 5 0 ⟨1, 5, true, 1000⟩ rfl rfl rfl rfl (by norm_num) (by norm_num)).1

theorem randSeqAux_sound (available : List Nat) (len : Nat) (hav : available ≠ []) :
    ∀ (rs acc : List Nat) (l : List Nat), acc.Nodup → (∀ x ∈ acc, x ∈ available) →
      acc.length ≤ len → randSeqAux available len rs acc = some l →
      l.length = len ∧ l.Nodup ∧ ∀ x ∈ l, x ∈ available := by
  intro rs
  induction rs with
  | nil =>
    intro acc l hnd hsub hle h
    rw [randSeqAux] at h
    split_ifs at h with hl
    cases h
    exact ⟨le_antisymm hle hl, hnd, hsub⟩
  | cons r rs ih =>
    intro acc l hnd hsub hle h
    rw [randSeqAux] at h
    split_ifs at h with hl
    · cases h
      exact ⟨le_antisymm hle hl, hnd, hsub⟩
    · set idx := available.getD (r % available.length) 0 with hidx
      have hmem : idx ∈ available := by
        have hpos : 0 < available.length := List.length_pos.mpr hav
        have hlt : r % available.length < available.length := Nat.mod_lt _ hpos
        rw [hidx, List.getD_eq_getElem available 0 hlt]
        exact List.getElem_mem hlt
      by_cases hin : idx ∈ acc
      · rw [if_pos hin] at h
        exact ih acc l hnd hsub hle h
      · rw [if_neg hin] at h
        refine ih (acc ++ [idx]) l ?_ ?_ ?_ h
        · simp [List.nodup_append, hnd, hin]
        · intro x hx
          rcases List.mem_append.mp hx with hx | hx
          · exact hsub x hx
          · simp at hx
            subst hx
            exact hmem
        · simp only [List.length_append, List.length_singleton]
          omega

theorem randSeq_some_props (len : Nat) (available : List Nat) (rs : List Nat) (l : List Nat)
    (hav : available ≠ []) (h : randSeq len available rs = some l) :
    l.length = len ∧ l.Nodup ∧ ∀ x ∈ l, x ∈ available :=
  randSeqAux_sound available len hav rs [] l (List.nodup_nil) (by simp) (by simp) h

theorem randSeq_overflow (len : Nat) (available : List Nat) (rs : List Nat)
    (hav : available ≠ []) (hlen : available.dedup.length < len) :
    randSeq len available rs = none := by
  rcases h : randSeq len available rs with _ | l
  · rfl
  · exfalso
    obtain ⟨hl, hnd, hsub⟩ := randSeq_some_props len available rs l hav h
    have h1 : l.toFinset.card = l.length := List.toFinset_card_of_nodup hnd
    have h2 : l.toFinset ⊆ available.toFinset := by
      intro x hx
      rw [List.mem_toFinset] at hx ⊢
      exact hsub x hx
    have h3 : available.toFinset.card = available.dedup.length := List.card_toFinset available
    have := Finset.card_le_card h2
    omega

theorem randSeqAux_take (available : List Nat) (len : Nat)
    (hnd : available.Nodup) (hlen : len ≤ available.length) :
    ∀ (n k : Nat), k + n = len →
      randSeqAux available len (List.range' k n) (available.take k) = some (available.take len) := by
  intro n
  induction n with
  | zero =>
    intro k hk
    have hk' : k = len := by omega
    subst hk'
    rw [List.range', randSeqAux]
    rw [if_pos (by simp [List.length_take]; omega)]
  | succ n ih =>
    intro k hk
    have hklt : k < len := by omega
    have hkav : k < available.length := lt_of_lt_of_le hklt hlen
    rw [List.range'_succ, randSeqAux]
    rw [if_neg (by simp [List.length_take]; omega)]
    have hmod : k % available.length = k := Nat.mod_eq_of_lt hkav
    have hgd : available.getD (k % available.length) 0 = available[k] := by
      rw [hmod]
      exact List.getD_eq_getElem available 0 hkav
    have hnotmem : available[k] ∉ available.take k := by
      intro hmem
      have hsplit : available.take k ++ available.drop k = available := List.take_append_drop k available
      have hdisj : (available.take k).Disjoint (available.drop k) := by
        have : (available.take k ++ available.drop k).Nodup := by rw [hsplit]; exact hnd
        exact (List.nodup_append.mp this).2.2
      have hmem2 : available[k] ∈ available.drop k := by
        rw [List.drop_eq_getElem_cons hkav]
        exact List.mem_cons_self _ _
      exact List.disjoint_left.mp hdisj hmem hmem2
    rw [hgd, if_neg hnotmem]
    have htake : available.take k ++ [available[k]] = available.take (k + 1) := by
      rw [List.take_succ]
      congr 1
      rw [List.getElem?_eq_getElem hkav]
      rfl
    rw [htake]
    exact ih (k + 1) (by omega)

theorem randSeq_take (available : List Nat) (len : Nat)
    (hnd : available.Nodup) (hlen : len ≤ available.length) :
    randSeq len available (List.range' 0 len) = some (available.take len) := by
  have := randSeqAux_take available len hnd hlen len 0 (by omega)
  simpa [randSeq] using this

/-- Claim C7 (corrected): the generator never raises any error; every
terminating run returns exactly `len` distinct cellIds drawn from the
region (never a truncated sequence); when `len` exceeds the number of
distinct cells the sampling loop never terminates for any draw stream;
and for `len` within a duplicate-free region's size a terminating draw
stream exists. -/
theorem claim_C7 :
    (∀ (len : Nat) (available rs l : List Nat), available ≠ [] →
      randSeq len available rs = some l →
      l.length = len ∧ l.Nodup ∧ ∀ x ∈ l, x ∈ available) ∧
    (∀ (len : Nat) (available rs : List Nat), available ≠ [] →
      available.dedup.length < len → randSeq len available rs = none) ∧
    (∀ (len : Nat) (available : List Nat), available.Nodup → len ≤ available.length →
      randSeq len available (List.range' 0 len) = some (available.take len)) :=
  ⟨fun len available rs l hav h => randSeq_some_props len available rs l hav h,
   fun len available rs hav hlen => randSeq_overflow len available rs hav hlen,
   fun len available hnd hlen => randSeq_take available len hnd hlen⟩

/-- Claim C7 counterexample: with an allowed region of two cells and a
requested length of three, generation neither terminates nor raises any
error for any stream of random draws — there is no InsufficientSpaceError
anywhere in the code. -/
theorem claim_C7_cex : ¬ randSeqTerminates 3 [0, 1] := by
  rintro ⟨rs, l, h⟩
  rw [randSeq_overflow 3 [0, 1] rs (by decide) (by decide)] at h
  cases h

theorem claim_C7_witness :
    randSeq 7 (regionFilter true) (List.range' 0 7) = some ((regionFilter true).take 7) :=
  claim_C7.2.2 7 (regionFilter true) (by decide) (by decide)

/-- Claim C1 (corrected): at session end the go/no-go games report
accuracy `round(hits / (hits + errors + misses) * 100)`, 100 when the
denominator is 0 and 0 when hits = 0 with a positive denominator;
SpamperceptionBlocks reports per-modality `round(hits / total * 100)`
but 0 (not 100) when total = 0; FiveTargetReactionGame reports
`round(hits / (hits + errors) * 100) || 100`, so every state whose
rounded accuracy is 0 — including hits = 0 with positive errors — is
reported as 100. -/
theorem claim_C1 :
    (∀ h e m : Nat, h + e + m = 0 → colorAccuracyPct h e m = 100) ∧
    (∀ h e m : Nat, h + e + m ≠ 0 →
      colorAccuracyPct h e m = round ((((h : ℚ)) / ((h : ℚ) + (e : ℚ) + (m : ℚ))) * 100)) ∧
    (∀ e m : Nat, 0 < e + m → colorAccuracyPct 0 e m = 0) ∧
    (∀ h t : Nat, 0 < t → spamAccuracyPct h t = round (((h : ℚ) / (t : ℚ)) * 100)) ∧
    (∀ h : Nat, spamAccuracyPct h 0 = 0) ∧
    (∀ e : Nat, fiveAccuracyPct 0 e = 100) ∧
    (∀ h e : Nat, round (((h : ℚ) / ((h : ℚ) + (e : ℚ))) * 100) ≠ 0 →
      fiveAccuracyPct h e = round (((h : ℚ) / ((h : ℚ) + (e : ℚ))) * 100)) := by
  refine ⟨?_, ?_, ?_, ?_, ?_, ?_, ?_⟩
  · intro h e m hz
    unfold colorAccuracyPct
    rw [if_pos hz]
  · intro h e m hz
    unfold colorAccuracyPct
    rw [if_neg hz]
    congr 1
    push_cast
    ring
  · intro e m hz
    unfold colorAccuracyPct
    rw [if_neg (by omega)]
    norm_num
  · intro h t ht
    unfold spamAccuracyPct
    rw [if_pos ht]
  · intro h
    unfold spamAccuracyPct
    norm_num
  · intro e
    unfold fiveAccuracyPct
    norm_num
  · intro h e hr
    unfold fiveAccuracyPct
    rw [if_neg hr]

/-- Claim C1 counterexample: FiveTargetReactionGame with 0 hits and 1
error reports 100, not round(0/1*100) = 0; SpamperceptionBlocks with an
empty modality (total 0) reports 0, not 100. -/
theorem claim_C1_cex :
    fiveAccuracyPct 0 1 = 100 ∧ fiveAccuracyPct 0 1 ≠ round ((((0 : ℚ)) / ((0 : ℚ) + (1 : ℚ) + (0 : ℚ))) * 100) ∧
    spamAccuracyPct 0 0 = 0 ∧ spamAccuracyPct 0 0 ≠ 100 := by
  refine ⟨by norm_num [fiveAccuracyPct], ?_, by norm_num [spamAccuracyPct], by norm_num [spamAccuracyPct]⟩
  norm_num [fiveAccuracyPct]

theorem claim_C1_witness :
    colorAccuracyPct 0 2 3 = 0 ∧ spamAccuracyPct 3 4 = round (((3 : ℚ) / (4 : ℚ)) * 100) :=
  ⟨claim_C1.2.2.1 2 3 (by norm_num), claim_C1.2.2.2.1 3 4 (by norm_num)⟩

